import Mathlib

/-!
Verification of the FRED-OS streaming chat pipeline (web client).

The definitions below are a shallow embedding of the TypeScript source:
* the token accumulator: the token case of the sendMessage event switch in
  the useChat hook, which appends the fragment and strips complete
  fenced json blocks with the regex replace followed by trim;
* the stream transport line splitting and event parsing of
  api.sendMessageStream in apps/web/src/services/api.ts;
* the event dispatcher (the per event state transitions of sendMessage)
  together with the zustand store mutations it invokes
  (chatStore, uiStore).

Strings are modelled as Lean String (lists of characters); JavaScript
string operations (trim, split, startsWith, slice) are given explicit
executable definitions that follow their ECMAScript behaviour on the
relevant inputs.
-/

namespace FredOS

/-- Characters treated as whitespace by the ECMAScript trim operation:
TAB, LF, VT, FF, CR, SP, NBSP, and the Unicode space separators plus
LS, PS and the BOM. -/
def isJsSpace (c : Char) : Bool :=
  (("\t\n\x0b\x0c\r ".data).contains c)
  || (("\u00A0\u1680\u2028\u2029\u202F\u205F\u3000\uFEFF".data).contains c)
  || (decide (0x2000 ≤ c.toNat) && decide (c.toNat ≤ 0x200A))

/-- ECMAScript trim on a character list: drop leading and
trailing whitespace. -/
def jsTrimL (s : List Char) : List Char :=
  ((s.dropWhile isJsSpace).reverse.dropWhile isJsSpace).reverse

/-- ECMAScript trim on a string. -/
def jsTrim (s : String) : String :=
  String.mk (jsTrimL s.data)

/-- Index of the leftmost occurrence of pattern pat in s
(the position at which a regex scan first matches the literal pat). -/
def findSub (pat : List Char) : List Char → Option Nat
  | [] => if pat.isEmpty then some 0 else none
  | c :: rest =>
    if pat.isPrefixOf (c :: rest) then some 0
    else (findSub pat rest).map (fun i => i + 1)

/-- Whether pat occurs as a contiguous substring of s. -/
def containsSub (pat s : List Char) : Bool :=
  (findSub pat s).isSome

/-- The opening delimiter of a structured-data fence. -/
def openerPat : List Char := "```json".data

/-- The closing delimiter of a structured-data fence. -/
def closerPat : List Char := "```".data

/-- One pass of the global lazy regex replace that removes every complete
fenced json block: find the leftmost opening delimiter, then the
leftmost closing delimiter after it, delete that span, and continue
scanning the remainder (the regex resumes after the match).  If the
opener has no closer after it nothing matches at all (any later opener
would itself contain a closer).  Fuel-based so that the kernel can
evaluate it; each step removes at least ten characters, so fuel equal to
the length of the input never runs out. -/
def stripFencesAux : Nat → List Char → List Char
  | 0, s => s
  | fuel + 1, s =>
    match findSub openerPat s with
    | none => s
    | some i =>
      let rest := s.drop (i + openerPat.length)
      match findSub closerPat rest with
      | none => s
      | some j => s.take i ++ stripFencesAux fuel (rest.drop (j + closerPat.length))

/-- Remove every complete fenced json block from s. -/
def stripFences (s : List Char) : List Char :=
  stripFencesAux s.length s

/-- The cleaning step applied to the accumulated message content:
strip complete fenced blocks, then trim. -/
def cleanL (s : List Char) : List Char :=
  jsTrimL (stripFences s)

/-- The token accumulator: the token case computes
raw = previous content concatenated with the fragment, removes every
complete fenced json block, and trims the result. -/
def accumulate (prev frag : String) : String :=
  String.mk (cleanL (prev.data ++ frag.data))

/-- Sequential application of accumulate to a list of arriving
fragments, starting from the empty placeholder content. -/
def accumulateSeq (frags : List String) : String :=
  frags.foldl accumulate ""

/-!  Stream transport: the read loop of api.sendMessageStream keeps a
string buffer, appends each decoded chunk, splits the buffer on the
newline character, pops the last segment back into the buffer, and
processes the remaining segments as complete lines. -/

/-- Split a character sequence into the list of newline-terminated lines
and the trailing remainder after the last newline.  This is the
composite of buffer.split on the newline character followed by popping
the final segment. -/
def splitNL : List Char → List (List Char) × List Char
  | [] => ([], [])
  | c :: rest =>
    let p := splitNL rest
    if c = '\n' then ([] :: p.1, p.2)
    else
      match p.1 with
      | [] => ([], c :: p.2)
      | l0 :: ls => ((c :: l0) :: ls, p.2)

/-- The read loop of sendMessageStream: feed each decoded chunk into the
carried buffer, extracting the complete lines in order; returns the
lines processed and the final (discarded) buffer. -/
def feedAll (buf : List Char) : List (List Char) → List (List Char) × List Char
  | [] => ([], buf)
  | c :: cs =>
    let p := splitNL (buf ++ c)
    let q := feedAll p.2 cs
    (p.1 ++ q.1, q.2)

/-- All complete lines delivered by the read loop over the given chunk
sequence, starting from the empty buffer. -/
def collectLines (chunks : List (List Char)) : List (List Char) :=
  (feedAll [] chunks).1

/-!  JSON values and a model of JSON.parse / JSON.stringify, needed for
the per-line event decoding of the transport.  Numbers keep their
lexeme (the dispatcher never computes with a numeric field). -/

/-- A parsed JSON value. -/
inductive JVal where
  | jnull : JVal
  | jbool : Bool → JVal
  | jnum : String → JVal
  | jstr : String → JVal
  | jarr : List JVal → JVal
  | jobj : List (String × JVal) → JVal

/-- JSON insignificant whitespace (space, tab, line feed, carriage
return). -/
def isJsonWs (c : Char) : Bool :=
  (c == ' ') || (c == '\t') || (c == '\n') || (c == '\r')

/-- Skip JSON whitespace. -/
def skipJsonWs (l : List Char) : List Char :=
  l.dropWhile isJsonWs

/-- Value of a hexadecimal digit. -/
def parseHexDigit (c : Char) : Option Nat :=
  if c.isDigit then some (c.toNat - 48)
  else if 'a' ≤ c ∧ c ≤ 'f' then some (c.toNat - 87)
  else if 'A' ≤ c ∧ c ≤ 'F' then some (c.toNat - 55)
  else none

/-- Parse the body of a JSON string after the opening quote: returns the
decoded characters and the rest of the input after the closing quote.
Escape sequences follow the JSON grammar; an unpaired surrogate escape
is replaced by the null character (Lean characters are scalar values;
no claim depends on surrogate pairs). -/
def parseStringBody : Nat → List Char → Option (List Char × List Char)
  | 0, _ => none
  | fuel + 1, l =>
    match l with
    | [] => none
    | c :: rest =>
      if c = '"' then some ([], rest)
      else if c = '\\' then
        match rest with
        | [] => none
        | e :: rest2 =>
          let esc : Option (Char × List Char) :=
            if e = '"' then some ('"', rest2)
            else if e = '\\' then some ('\\', rest2)
            else if e = '/' then some ('/', rest2)
            else if e = 'b' then some ('\x08', rest2)
            else if e = 'f' then some ('\x0c', rest2)
            else if e = 'n' then some ('\n', rest2)
            else if e = 'r' then some ('\r', rest2)
            else if e = 't' then some ('\t', rest2)
            else if e = 'u' then
              match rest2 with
              | h1 :: h2 :: h3 :: h4 :: rest3 =>
                match parseHexDigit h1, parseHexDigit h2, parseHexDigit h3, parseHexDigit h4 with
                | some a, some b, some c2, some d =>
                  some (Char.ofNat (((a * 16 + b) * 16 + c2) * 16 + d), rest3)
                | _, _, _, _ => none
              | _ => none
            else none
          match esc with
          | some (ch, r) => (parseStringBody fuel r).map (fun p => (ch :: p.1, p.2))
          | none => none
      else if c.toNat < 0x20 then none
      else (parseStringBody fuel rest).map (fun p => (c :: p.1, p.2))

/-- Parse a JSON number, returning its lexeme and the rest of the
input. -/
def parseNumber (l : List Char) : Option (List Char × List Char) :=
  let (sign, l1) :=
    match l with
    | '-' :: r => (['-'], r)
    | _ => ([], l)
  match l1 with
  | [] => none
  | c :: _ =>
    if c.isDigit then
      let (intPart, l2) :=
        if c = '0' then (['0'], l1.tail)
        else (l1.takeWhile Char.isDigit, l1.dropWhile Char.isDigit)
      let (frac, l3) :=
        match l2 with
        | '.' :: r =>
          if (r.takeWhile Char.isDigit).isEmpty then ([], l2)
          else ('.' :: r.takeWhile Char.isDigit, r.dropWhile Char.isDigit)
        | _ => ([], l2)
      let (ex, l4) :=
        match l3 with
        | e :: r =>
          if e = 'e' ∨ e = 'E' then
            let (sg, r2) :=
              match r with
              | '+' :: rr => (['+'], rr)
              | '-' :: rr => (['-'], rr)
              | _ => ([], r)
            if (r2.takeWhile Char.isDigit).isEmpty then ([], l3)
            else (e :: (sg ++ r2.takeWhile Char.isDigit), r2.dropWhile Char.isDigit)
          else ([], l3)
        | [] => ([], [])
      some (sign ++ intPart ++ frac ++ ex, l4)
    else none

/-- Parsing mode: a whole value, or the inside of an object or array
(just after the opening bracket, or after a comma). -/
inductive PMode where
  | value : PMode
  | objBody : PMode
  | objMembers : PMode
  | arrBody : PMode
  | arrMembers : PMode

/-- Recursive-descent JSON parser (fuel-indexed so the kernel can
evaluate it). -/
def parseJ : Nat → PMode → List Char → Option (JVal × List Char)
  | 0, _, _ => none
  | fuel + 1, PMode.value, l =>
    match skipJsonWs l with
    | [] => none
    | c :: rest =>
      if c = '"' then
        match parseStringBody fuel rest with
        | some (cs, r) => some (JVal.jstr (String.mk cs), r)
        | none => none
      else if c = '\x7b' then parseJ fuel PMode.objBody rest
      else if c = '[' then parseJ fuel PMode.arrBody rest
      else if c = 't' then
        if ("rue".data).isPrefixOf rest then some (JVal.jbool true, rest.drop 3) else none
      else if c = 'f' then
        if ("alse".data).isPrefixOf rest then some (JVal.jbool false, rest.drop 4) else none
      else if c = 'n' then
        if ("ull".data).isPrefixOf rest then some (JVal.jnull, rest.drop 3) else none
      else
        match parseNumber (c :: rest) with
        | some (lx, r) => some (JVal.jnum (String.mk lx), r)
        | none => none
  | fuel + 1, PMode.objBody, l =>
    match skipJsonWs l with
    | '\x7d' :: r => some (JVal.jobj [], r)
    | _ => parseJ fuel PMode.objMembers l
  | fuel + 1, PMode.objMembers, l =>
    match skipJsonWs l with
    | '"' :: r0 =>
      match parseStringBody fuel r0 with
      | some (key, r1) =>
        match skipJsonWs r1 with
        | ':' :: r2 =>
          match parseJ fuel PMode.value r2 with
          | some (v, r3) =>
            (match skipJsonWs r3 with
            | ',' :: r4 =>
              match parseJ fuel PMode.objMembers r4 with
              | some (JVal.jobj fs, r5) => some (JVal.jobj ((String.mk key, v) :: fs), r5)
              | _ => none
            | '\x7d' :: r4 => some (JVal.jobj [(String.mk key, v)], r4)
            | _ => none)
          | none => none
        | _ => none
      | none => none
    | _ => none
  | fuel + 1, PMode.arrBody, l =>
    match skipJsonWs l with
    | ']' :: r => some (JVal.jarr [], r)
    | _ => parseJ fuel PMode.arrMembers l
  | fuel + 1, PMode.arrMembers, l =>
    match parseJ fuel PMode.value l with
    | some (v, r1) =>
      (match skipJsonWs r1 with
      | ',' :: r2 =>
        match parseJ fuel PMode.arrMembers r2 with
        | some (JVal.jarr vs, r3) => some (JVal.jarr (v :: vs), r3)
        | _ => none
      | ']' :: r2 => some (JVal.jarr [v], r2)
      | _ => none)
    | none => none

/-- JSON.parse: parse one value and require only whitespace after it.
The fuel bound suffices because every two levels of descent consume at
least one input character. -/
def jsonParse (l : List Char) : Option JVal :=
  match parseJ (2 * l.length + 2) PMode.value l with
  | some (v, rest) => if (skipJsonWs rest).isEmpty then some v else none
  | none => none

/-- Lowercase hexadecimal digit. -/
def hexChar (n : Nat) : Char :=
  if n < 10 then Char.ofNat (48 + n) else Char.ofNat (87 + n)

/-- JSON.stringify escaping of one character inside a string. -/
def escapeJsonChar (c : Char) : List Char :=
  if c = '"' then ['\\', '"']
  else if c = '\\' then ['\\', '\\']
  else if c = '\x08' then ['\\', 'b']
  else if c = '\x0c' then ['\\', 'f']
  else if c = '\n' then ['\\', 'n']
  else if c = '\r' then ['\\', 'r']
  else if c = '\t' then ['\\', 't']
  else if c.toNat < 0x20 then
    ['\\', 'u', '0', '0', hexChar (c.toNat / 16), hexChar (c.toNat % 16)]
  else [c]

/-- Quote and escape a string as JSON.stringify does. -/
def quoteJson (s : String) : String :=
  String.mk ('"' :: s.data.foldr (fun c acc => escapeJsonChar c ++ acc) ['"'])

/-- Join strings with commas. -/
def joinComma : List String → String
  | [] => ""
  | [s] => s
  | s :: rest => s ++ "," ++ joinComma rest

/-- JSON.stringify on a parsed value (fuel-indexed; numbers are emitted
as their stored lexeme). -/
def stringifyFuel : Nat → JVal → String
  | 0, _ => ""
  | fuel + 1, v =>
    match v with
    | JVal.jnull => "null"
    | JVal.jbool true => "true"
    | JVal.jbool false => "false"
    | JVal.jnum lx => lx
    | JVal.jstr s => quoteJson s
    | JVal.jarr vs => "[" ++ joinComma (vs.map (stringifyFuel fuel)) ++ "]"
    | JVal.jobj fs =>
      "\x7b" ++ joinComma (fs.map (fun p => quoteJson p.1 ++ ":" ++ stringifyFuel fuel p.2)) ++ "\x7d"

mutual

/-- Size of a JSON value, used as evaluation fuel for stringify. -/
def jsize : JVal → Nat
  | JVal.jnull => 1
  | JVal.jbool _ => 1
  | JVal.jnum _ => 1
  | JVal.jstr _ => 1
  | JVal.jarr vs => 1 + jsizeList vs
  | JVal.jobj fs => 1 + jsizeFields fs

/-- Size of a list of JSON values. -/
def jsizeList : List JVal → Nat
  | [] => 0
  | v :: vs => jsize v + jsizeList vs

/-- Size of a JSON object field list. -/
def jsizeFields : List (String × JVal) → Nat
  | [] => 0
  | (_, v) :: fs => jsize v + jsizeFields fs

end

/-- JSON.stringify. -/
def jsonStringify (v : JVal) : String :=
  stringifyFuel (jsize v) v

/-!  Event decoding.  The onEvent callback of sendMessage switches on
event.type and reads the other fields loosely; fields declared as
strings by the SSEEvent interface are modelled as present-and-string or
absent. -/

/-- Last binding of a key in a field list (later duplicate keys of a
JSON object overwrite earlier ones). -/
def lookupField (fields : List (String × JVal)) (k : String) : Option JVal :=
  ((fields.filter (fun p => p.1 == k)).getLast?).map (fun p => p.2)

/-- Field access on a JSON value (none on non-objects and missing
keys, like property access returning undefined). -/
def getField : JVal → String → Option JVal
  | JVal.jobj fs, k => lookupField fs k
  | _, _ => none

/-- Read a field as a string, none when absent or not a string. -/
def asStr : Option JVal → Option String
  | some (JVal.jstr s) => some s
  | _ => none

/-- Read a field as a string with a default (the protocol declares these
fields as strings; non-string values are not modelled beyond the
default). -/
def strOrDefault (v : Option JVal) (d : String) : String :=
  match v with
  | some (JVal.jstr s) => s
  | _ => d

/-- The JavaScript truthiness test used on optional string fields:
false for an absent value and for the empty string. -/
def strTruthy : Option String → Bool
  | some s => !s.data.isEmpty
  | none => false

/-- The JavaScript expression (v or default) on an optional string:
the default stands in when the value is absent or empty. -/
def strOrElse (v : Option String) (d : String) : String :=
  match v with
  | some s => if s.data.isEmpty then d else s
  | none => d

/-- An indicator reference as used by the fred_search_results handler:
only the id and the category matter (id is a string per FredSeriesInfo;
a non-string or missing category behaves like an unknown one). -/
structure IndicatorRef where
  id : String
  category : Option String
deriving DecidableEq

/-- Decode one element of event.indicators. -/
def decodeIndicator (v : JVal) : IndicatorRef :=
  { id := strOrDefault (getField v "id") "", category := asStr (getField v "category") }

/-- Log entries are strings per the protocol type. -/
def jvalAsLogString (v : JVal) : String :=
  match v with
  | JVal.jstr s => s
  | _ => ""

/-- The events the sendMessage switch distinguishes.  A tool_call input
payload is kept as the parsed JSON value (the handler stringifies it for
the log line); ignored stands for any parsed value whose type matches no
case of the switch. -/
inductive DispatchEvent where
  | token : String → DispatchEvent
  | toolCall : String → Option JVal → DispatchEvent
  | toolResult : String → String → DispatchEvent
  | done : Option String → Option (List String) → DispatchEvent
  | fredSearchResults : Option (List IndicatorRef) → DispatchEvent
  | error : Option String → DispatchEvent
  | ignored : DispatchEvent

/-- Decode a parsed JSON value into the event the switch sees. -/
def decodeEvent (v : JVal) : DispatchEvent :=
  match asStr (getField v "type") with
  | some t =>
    if t = "token" then DispatchEvent.token (strOrDefault (getField v "content") "")
    else if t = "tool_call" then
      DispatchEvent.toolCall (strOrDefault (getField v "tool") "undefined") (getField v "input")
    else if t = "tool_result" then
      DispatchEvent.toolResult (strOrDefault (getField v "tool") "undefined")
        (strOrDefault (getField v "result") "")
    else if t = "done" then
      DispatchEvent.done (asStr (getField v "sessionId"))
        (match getField v "logs" with
        | some (JVal.jarr vs) => some (vs.map jvalAsLogString)
        | _ => none)
    else if t = "fred_search_results" then
      DispatchEvent.fredSearchResults
        (match getField v "indicators" with
        | some (JVal.jarr vs) => some (vs.map decodeIndicator)
        | _ => none)
    else if t = "error" then DispatchEvent.error (asStr (getField v "message"))
    else DispatchEvent.ignored
  | none => DispatchEvent.ignored

/-- The event-line marker of the wire protocol. -/
def lineMarker : List Char := "data: ".data

/-- Per-line event extraction of the read loop: only lines beginning
with the marker are parsed; a line whose payload fails to parse yields
nothing (the catch clause skips it). -/
def parseLine (line : List Char) : Option JVal :=
  if lineMarker.isPrefixOf line then jsonParse (line.drop 6) else none

/-- The values delivered to the onEvent callback for a chunked response
body. -/
def deliveredValues (chunks : List (List Char)) : List JVal :=
  (collectLines chunks).filterMap parseLine

/-!  Session state sink: the fields of chatStore and uiStore that the
pipeline mutates, and the store operations from
apps/web/src/stores/chatStore.ts and uiStore.ts.  Message timestamps
and chip labels do not influence any transition and are omitted. -/

/-- MessageRole of the shared package. -/
inductive MessageRole where
  | user : MessageRole
  | assistant : MessageRole
  | system : MessageRole
deriving DecidableEq

/-- ContentType of the shared package. -/
inductive ContentType where
  | text : ContentType
  | chart : ContentType
  | loading : ContentType
  | error : ContentType
deriving DecidableEq

/-- A chat message as stored in the message list. -/
structure ChatMessage where
  id : String
  role : MessageRole
  ctype : ContentType
  content : String
deriving DecidableEq

/-- Chip kind of a dragged chip. -/
inductive ChipType where
  | indicator : ChipType
  | stock : ChipType
deriving DecidableEq

/-- A context chip attached to the next send. -/
structure Chip where
  id : String
  ctype : ChipType
deriving DecidableEq

/-- The store state the pipeline reads and writes. -/
structure ChatState where
  messages : List ChatMessage
  isLoading : Bool
  sessionId : Option String
  logs : List String
  chips : List Chip
  watched : List String
deriving DecidableEq

/-- chatStore.addMessage. -/
def addMessage (m : ChatMessage) (s : ChatState) : ChatState :=
  { s with messages := s.messages ++ [m] }

/-- chatStore.removeMessage / the filter in the abort handler. -/
def removeMessage (i : String) (s : ChatState) : ChatState :=
  { s with messages := s.messages.filter (fun m => m.id != i) }

/-- chatStore.setLoading. -/
def setLoading (b : Bool) (s : ChatState) : ChatState :=
  { s with isLoading := b }

/-- chatStore.setSessionId. -/
def setSessionId (i : String) (s : ChatState) : ChatState :=
  { s with sessionId := some i }

/-- chatStore.setLogs. -/
def setLogs (ls : List String) (s : ChatState) : ChatState :=
  { s with logs := ls }

/-- chatStore.appendLog. -/
def appendLog (line : String) (s : ChatState) : ChatState :=
  { s with logs := s.logs ++ [line] }

/-- chatStore.clearChips. -/
def clearChips (s : ChatState) : ChatState :=
  { s with chips := [] }

/-- uiStore.setWatchedIndicators (slices its argument to five
entries). -/
def setWatchedIndicators (ids : List String) (s : ChatState) : ChatState :=
  { s with watched := ids.take 5 }

/-!  The fred_search_results ordering. -/

/-- The own property names of Object.prototype, inherited by the object
literal of the comparator: a lookup with one of these keys finds the
inherited function (or, for the prototype accessor, an object), never
undefined. -/
def protoProps : List String :=
  ["constructor", "hasOwnProperty", "isPrototypeOf", "propertyIsEnumerable",
   "toLocaleString", "toString", "valueOf",
   "__defineGetter__", "__defineSetter__", "__lookupGetter__", "__lookupSetter__",
   "__proto__"]

/-- The operand the comparator obtains for one indicator: the lookup
order[category] on the object literal with own properties sector 0,
macro 1 and risk 2, with the null-coalescing default 1.  The lookup
walks the prototype chain, so a category naming an Object.prototype
property finds the inherited function (or object): the default does not
apply and the subtraction in the comparator evaluates to NaN — modelled
as none.  A missing category or any other string finds undefined, and
the default 1 applies. -/
def catRank : Option String → Option Nat
  | some c =>
    if c = "sector" then some 0
    else if c = "macro" then some 1
    else if c = "risk" then some 2
    else if protoProps.contains c then none
    else some 1
  | none => some 1

/-- Whether the comparator obtains a numeric rank for this indicator
(its category is not an inherited Object.prototype property name). -/
def rankable (a : IndicatorRef) : Bool :=
  (catRank a.category).isSome

/-- The numeric rank of a rankable indicator (the default 0 is never
reached on rankable input). -/
def rankVal (a : IndicatorRef) : Nat :=
  (catRank a.category).getD 0

/-- SortCompare(a, b) is not positive: the comparator subtraction is at
most zero, where a NaN result (either operand non-numeric) is treated
as +0 by the ECMAScript sort. -/
def sortLeq (a b : IndicatorRef) : Bool :=
  match catRank a.category, catRank b.category with
  | some x, some y => decide (x ≤ y)
  | _, _ => true

/-- Insert an indicator into a list ordered by the comparator, before
the first entry it compares at most zero with: an element only passes
entries it compares strictly greater than, which keeps arrival order
among entries comparing equal. -/
def insertByRank (x : IndicatorRef) : List IndicatorRef → List IndicatorRef
  | [] => [x]
  | y :: ys =>
    if sortLeq x y then x :: y :: ys
    else y :: insertByRank x ys

/-- The sort performed on event.indicators.  When every category
carries a numeric rank the comparator is a consistent comparison
function and ECMAScript mandates the unique stable rank order, which
this insertion sort realises (the sortByRank lemmas make that precise).
When a category names an Object.prototype property the comparator can
be inconsistent and ECMAScript leaves the order implementation-defined;
this definition then realises one admissible order, and the only
theorem evaluated in that regime uses a two-element input whose
comparisons are all equal, where stability again mandates arrival
order. -/
def sortByRank (l : List IndicatorRef) : List IndicatorRef :=
  l.foldr insertByRank []

/-- The category rank exactly as the claim words it: sector 0, risk 2,
macro and every missing or unknown category 1.  This definition follows
the claim text, not the source, and exists only to be compared with the
source comparator. -/
def claimCatRank : Option String → Nat
  | some c => if c = "sector" then 0 else if c = "risk" then 2 else 1
  | none => 1

/-- Stable insertion sort by the claimed category rank (the sort the
claim describes), for comparison with the source comparator. -/
def claimInsertByRank (x : IndicatorRef) : List IndicatorRef → List IndicatorRef
  | [] => [x]
  | y :: ys =>
    if claimCatRank x.category ≤ claimCatRank y.category then x :: y :: ys
    else y :: claimInsertByRank x ys

/-- The sort the claim describes, for comparison with the source
comparator. -/
def claimSortByRank (l : List IndicatorRef) : List IndicatorRef :=
  l.foldr claimInsertByRank []

/-!  The event dispatcher: one state transition per received event, as
performed by the onEvent switch of sendMessage in the useChat hook.
The captured argument is the sessionId the hook closure captured when
the send began. -/

/-- The per-message update of the token case: the message with the
streaming id gets the accumulated content, every other message is
untouched. -/
def tokenUpdate (assistantId : String) (c : String) (m : ChatMessage) : ChatMessage :=
  if m.id = assistantId then { m with content := accumulate m.content c } else m

/-- Apply one event to the store state. -/
def handleEvent (assistantId : String) (captured : Option String)
    (s : ChatState) (ev : DispatchEvent) : ChatState :=
  match ev with
  | DispatchEvent.token c =>
    { s with messages := s.messages.map (tokenUpdate assistantId c) }
  | DispatchEvent.toolCall tool input =>
    appendLog ("⚡ " ++ tool ++ "(" ++
      (match input with
      | some j => jsonStringify j
      | none => "undefined") ++ ")") s
  | DispatchEvent.toolResult tool result =>
    appendLog ("✅ " ++ tool ++ " → " ++ String.mk (result.data.take 100) ++ "...") s
  | DispatchEvent.done sid lgs =>
    let s1 :=
      if strTruthy sid && !strTruthy captured then
        match sid with
        | some i => setSessionId i s
        | none => s
      else s
    (match lgs with
    | some ls => if ls.length > 0 then setLogs ls s1 else s1
    | none => s1)
  | DispatchEvent.fredSearchResults inds =>
    (match inds with
    | some l =>
      if l.length > 0 then
        setWatchedIndicators (((sortByRank l).map (fun i => i.id)).take 5) s
      else s
    | none => s)
  | DispatchEvent.error msg =>
    { s with
      messages := s.messages.map (fun m =>
        if m.id = assistantId then
          { m with
            ctype := ContentType.error,
            content := "[ERR] " ++ strOrElse msg "CONNECTION_INTERRUPTED" }
        else m) }
  | DispatchEvent.ignored => s

/-!  One whole send.  The transport behaviour is summarised by the
outcome the await of api.sendMessageStream produces:

* completed: the read loop ended, either because the stream was
  exhausted or because stop() aborted it mid-stream — the abort
  listener cancels the reader and the catch inside sendMessageStream
  returns on an AbortError instead of rethrowing, so in both cases the
  promise resolves normally after delivering the events read so far;
* abortedBeforeStream: the fetch itself (or reader acquisition)
  rejected with an AbortError, which sendMessageStream does not catch,
  reaching the AbortError branch of the useChat catch;
* failed: any other exception after delivering some events, reaching
  the generic catch branch. -/
inductive StreamOutcome where
  | completed : List DispatchEvent → StreamOutcome
  | abortedBeforeStream : StreamOutcome
  | failed : List DispatchEvent → String → StreamOutcome

/-- Result of a send: the final store state and the message text posted
to the server (none when the guard returned without opening a
request). -/
structure SendResult where
  state : ChatState
  request : Option String
deriving DecidableEq

/-- The context marker built from one chip. -/
def chipMention (c : Chip) : String :=
  match c.ctype with
  | ChipType.indicator => "[FRED:" ++ c.id ++ "]"
  | ChipType.stock => "[STOCK:" ++ c.id ++ "]"

/-- The display form of one chip in the user message. -/
def chipDisplay (c : Chip) : String :=
  "`" ++ c.id ++ "`"

/-- Join strings with single spaces. -/
def joinSpace : List String → String
  | [] => ""
  | [s] => s
  | s :: rest => s ++ " " ++ joinSpace rest

/-- The early-return guard of sendMessage. -/
def sendBlocked (s : ChatState) (text : String) : Bool :=
  ((jsTrim text).data.isEmpty && s.chips.isEmpty) || s.isLoading

/-- The message text posted to the server: the chip context markers
joined with spaces, prepended to the text and trimmed when chips are
attached. -/
def fullMessageOf (s : ChatState) (text : String) : String :=
  let chipContext := joinSpace (s.chips.map chipMention)
  if chipContext.data.isEmpty then text else jsTrim (chipContext ++ " " ++ text)

/-- The displayed content of the user message: the chips as inline code
mentions followed by the text, trimmed, when chips are attached. -/
def displayContentOf (s : ChatState) (text : String) : String :=
  if s.chips.length > 0 then jsTrim (joinSpace (s.chips.map chipDisplay) ++ " " ++ text)
  else text

/-- The user message appended when a send begins. -/
def userMsgOf (s : ChatState) (text userId : String) : ChatMessage :=
  { id := userId, role := MessageRole.user, ctype := ContentType.text,
    content := displayContentOf s text }

/-- The empty streaming assistant message appended when a send
begins. -/
def assistantPlaceholder (assistantId : String) : ChatMessage :=
  { id := assistantId, role := MessageRole.assistant, ctype := ContentType.text,
    content := "" }

/-- The store state right after the pre-stream mutations of
sendMessage: user message appended, loading set, chips cleared, and the
streaming placeholder appended. -/
def preStreamState (s : ChatState) (text userId assistantId : String) : ChatState :=
  addMessage (assistantPlaceholder assistantId)
    (clearChips (setLoading true (addMessage (userMsgOf s text userId) s)))

/-- The per-message update of the generic catch branch: the streaming
message is finalized as a connection-interrupted error message. -/
def failUpdate (assistantId errMsg : String) (m : ChatMessage) : ChatMessage :=
  if m.id = assistantId then
    { m with
      ctype := ContentType.error,
      content := "[ERR] CONNECTION_INTERRUPTED\n" ++ errMsg }
  else m

/-- The sendMessage function of the useChat hook: guard, append the
user message, mark loading, clear the chips, append the empty streaming
assistant message, run the stream to its outcome, and clear loading in
the finally block (which also runs after the early return of the abort
branch). -/
def sendMessage (s : ChatState) (text : String) (userId assistantId : String)
    (outcome : StreamOutcome) : SendResult :=
  if sendBlocked s text then { state := s, request := none }
  else
    let s2 := preStreamState s text userId assistantId
    let captured := s.sessionId
    let finalState :=
      match outcome with
      | StreamOutcome.completed evs =>
        setLoading false (evs.foldl (handleEvent assistantId captured) s2)
      | StreamOutcome.abortedBeforeStream =>
        setLoading false (removeMessage assistantId s2)
      | StreamOutcome.failed evs errMsg =>
        let s3 := evs.foldl (handleEvent assistantId captured) s2
        setLoading false { s3 with messages := s3.messages.map (failUpdate assistantId errMsg) }
    { state := finalState, request := some (fullMessageOf s text) }

/-- The events the dispatcher receives from a list of raw stream lines
(each line as transmitted, before the marker check). -/
def eventsOfLines (lines : List String) : List DispatchEvent :=
  (lines.filterMap (fun line => parseLine line.data)).map decodeEvent

/-- Whether an event is the error event of the protocol. -/
def isErrorEvent : DispatchEvent → Bool
  | DispatchEvent.error _ => true
  | _ => false

/-- A conversation with no messages, not loading, no session id, no
logs, no chips and an empty watch list: the smallest store state used
to instantiate the theorems below. -/
def emptyState : ChatState :=
  { messages := [], isLoading := false, sessionId := none, logs := [], chips := [],
    watched := [] }

/-- The rank order underlying the fred_search_results sort on rankable
indicators. -/
def rankLE (a b : IndicatorRef) : Prop :=
  rankVal a ≤ rankVal b

/-!  Lemmas about substring search and fence stripping. -/

theorem nil_isPrefixOf (l : List Char) : List.isPrefixOf [] l = true := by
  cases l <;> rfl

theorem isPrefixOf_trans : ∀ {p q s : List Char},
    p.isPrefixOf q = true → q.isPrefixOf s = true → p.isPrefixOf s = true
  | [], q, s, _, _ => nil_isPrefixOf s
  | a :: as, [], _, h1, _ => by simp [List.isPrefixOf] at h1
  | a :: as, b :: bs, [], _, h2 => by simp [List.isPrefixOf] at h2
  | a :: as, b :: bs, c :: cs, h1, h2 => by
    simp only [List.isPrefixOf, Bool.and_eq_true, beq_iff_eq] at h1 h2 ⊢
    exact ⟨h1.1.trans h2.1, isPrefixOf_trans h1.2 h2.2⟩

theorem findSub_isPrefixOf_drop {pat : List Char} :
    ∀ {s : List Char} {i : Nat}, findSub pat s = some i →
      pat.isPrefixOf (s.drop i) = true
  | [], i, h => by
    cases pat with
    | nil =>
      rw [List.drop_nil]
      rfl
    | cons a as =>
      rw [show findSub (a :: as) ([] : List Char) = none from rfl] at h
      exact Option.noConfusion h
  | c :: rest, i, h => by
    by_cases hp : pat.isPrefixOf (c :: rest) = true
    · simp only [findSub, hp, if_true, Option.some.injEq] at h
      subst h
      exact hp
    · simp only [findSub, hp, if_false] at h
      cases hr : findSub pat rest with
      | none => simp [hr] at h
      | some j =>
        rw [hr] at h
        simp at h
        subst h
        simpa using findSub_isPrefixOf_drop hr

/-- If the closing delimiter occurs nowhere in s, then neither does
the opening delimiter (the closer is a prefix of the opener). -/
theorem findSub_opener_eq_none (s : List Char)
    (h : containsSub closerPat s = false) : findSub openerPat s = none := by
  induction s with
  | nil => rfl
  | cons c rest ih =>
    by_cases hp : openerPat.isPrefixOf (c :: rest) = true
    · exfalso
      have hcl : closerPat.isPrefixOf (c :: rest) = true :=
        isPrefixOf_trans (by decide) hp
      have hsome : containsSub closerPat (c :: rest) = true := by
        simp [containsSub, findSub, hcl]
      rw [hsome] at h
      exact Bool.noConfusion h
    · have hrest : containsSub closerPat rest = false := by
        cases hcr : findSub closerPat rest with
        | none => simp [containsSub, hcr]
        | some j =>
          exfalso
          have hsome : containsSub closerPat (c :: rest) = true := by
            simp only [containsSub, findSub]
            by_cases hc : closerPat.isPrefixOf (c :: rest) = true
            · simp [hc]
            · simp [hc, hcr]
          rw [hsome] at h
          exact Bool.noConfusion h
      have hnone := ih hrest
      simp [findSub, hp, hnone]

/-- Without an opening delimiter the fence stripper is the
identity. -/
theorem stripFencesAux_of_no_opener (fuel : Nat) (s : List Char)
    (h : findSub openerPat s = none) : stripFencesAux fuel s = s := by
  cases fuel with
  | zero => rfl
  | succ n => simp [stripFencesAux, h]

/-- On delimiter-free, trim-fixed input the cleaning step is the
identity. -/
theorem cleanL_of_clean (s : List Char)
    (h1 : containsSub closerPat s = false) (h2 : jsTrimL s = s) : cleanL s = s := by
  unfold cleanL stripFences
  rw [stripFencesAux_of_no_opener _ _ (findSub_opener_eq_none s h1), h2]

/-!  Claim C7 — identity of accumulate on clean input. -/

/-- Claim C7, counterexample: the claim is false as stated, because the
trailing trim of each accumulate step removes edge whitespace even from
fence-free input: the string of a space followed by x contains no fence
delimiter, yet accumulating it from the empty content drops the leading
space. -/
theorem c7_counterexample :
    containsSub closerPat (" x").data = false ∧ accumulate "" " x" ≠ " x" := by
  constructor
  · decide
  · decide

/-- Claim C7, amended: accumulate is the identity on input that is free
of fence delimiters and carries no leading or trailing whitespace: for
any such s, accumulate of the empty content and s is s, and accumulate
of content s with the empty fragment is s. -/
theorem c7_amended (s : String)
    (h1 : containsSub closerPat s.data = false) (h2 : jsTrim s = s) :
    accumulate "" s = s ∧ accumulate s "" = s := by
  have hdata : jsTrimL s.data = s.data := congrArg String.data h2
  have hclean : cleanL s.data = s.data := cleanL_of_clean s.data h1 hdata
  have hmk : String.mk s.data = s := by cases s with | mk l => rfl
  constructor
  · show String.mk (cleanL ("".data ++ s.data)) = s
    rw [show ("".data ++ s.data) = s.data from rfl, hclean, hmk]
  · show String.mk (cleanL (s.data ++ "".data)) = s
    rw [show (s.data ++ "".data) = s.data from List.append_nil s.data, hclean, hmk]

/-- Claim C7, witness: a concrete clean string on which the amended
identity holds. -/
theorem c7_amended_witness :
    (containsSub closerPat ("abc").data = false ∧ jsTrim "abc" = "abc")
    ∧ (accumulate "" "abc" = "abc" ∧ accumulate "abc" "" = "abc") :=
  ⟨⟨by decide, by decide⟩, c7_amended "abc" (by decide) (by decide)⟩

/-!  Claim C2 — order of token fragments. -/

/-- Claim C2, counterexample: feeding the fragments Hello, space, world
through sequential accumulate steps does not yield the string Hello
space world, because the accumulate step trims the accumulated content
after every fragment and so drops the whitespace-only fragment at the
buffer edge. -/
theorem c2_counterexample :
    accumulateSeq ["Hello", " ", "world"] ≠ "Hello world" := by
  decide

/-- Claim C2, amended: feeding the fragments Hello, space, world through
sequential accumulate steps yields Helloworld — the fragments are
applied strictly in arrival order, but the per-step trim removes the
trailing space left by the whitespace-only fragment. -/
theorem c2_amended :
    accumulateSeq ["Hello", " ", "world"] = "Helloworld" := by
  decide

/-!  Claim C3 — partial fences stay visible and disappear once
closed. -/

/-- Claim C3: an opened but unclosed fence is left verbatim in the
accumulated content, and the later fragment that closes it removes the
whole fence retroactively, yielding exactly the surrounding text. -/
theorem c3_partial_fence :
    accumulate "" "before ```json \x7b\"a\":1" = "before ```json \x7b\"a\":1"
    ∧ accumulate "before ```json \x7b\"a\":1" "\x7d ``` after" = "before  after" := by
  constructor
  · decide
  · decide

/-!  Claim C10 — the sendMessage guard. -/

/-- Claim C10: invoking sendMessage while a send is in flight, or with
text that trims to nothing while no chips are attached, is a complete
no-op: the store state is returned unchanged and no request is
opened. -/
theorem c10_noop_guard (s : ChatState) (text userId assistantId : String)
    (outcome : StreamOutcome) (h : sendBlocked s text = true) :
    sendMessage s text userId assistantId outcome = { state := s, request := none } := by
  unfold sendMessage
  rw [if_pos h]

/-- Claim C10, witness: blank text with no chips on an idle state. -/
theorem c10_noop_guard_witness :
    sendBlocked emptyState "  " = true
    ∧ sendMessage emptyState "  " "u1" "a1" (StreamOutcome.completed [DispatchEvent.token "x"])
        = { state := emptyState, request := none } :=
  ⟨by decide,
    c10_noop_guard emptyState "  " "u1" "a1" (StreamOutcome.completed [DispatchEvent.token "x"])
      (by decide)⟩

/-!  Claim C1 — what stop() during streaming actually leaves behind. -/

/-- Claim C1 concerns a stop() issued after two token events and before
any terminal event.  In that situation the fetch promise has already
resolved and the abort surfaces inside the read loop of
sendMessageStream, whose catch swallows the AbortError and returns
normally, so the AbortError branch of useChat that would remove the
partial message never runs: the partial assistant message stays in the
list as an ordinary text message.  This theorem evaluates the pipeline
at that failing input: after two tokens and a mid-stream abort the
assistant message is still present with its partial content, contrary
to the removal the claim describes (the other half of the claim — that
no error message is appended — does hold). -/
theorem c1_stop_mid_stream_leaves_message :
    ((sendMessage emptyState "question" "u1" "a1"
        (StreamOutcome.completed [DispatchEvent.token "Hel", DispatchEvent.token "lo"])).state.messages.map
      (fun m => (m.id, m.ctype, m.content)))
      = [("u1", ContentType.text, "question"), ("a1", ContentType.text, "Hello")] := by
  decide

/-!  Claim C5 — chunk-splitting invariance of the line splitter. -/

theorem splitNL_cons_nl (rest : List Char) :
    splitNL ('\n' :: rest) = ([] :: (splitNL rest).1, (splitNL rest).2) := by
  simp [splitNL]

theorem splitNL_cons_other (c : Char) (rest : List Char) (hc : c ≠ '\n') :
    splitNL (c :: rest) =
      (match (splitNL rest).1 with
       | [] => ([], c :: (splitNL rest).2)
       | l0 :: ls => ((c :: l0) :: ls, (splitNL rest).2)) := by
  simp [splitNL, hc]

theorem splitNL_append (a b : List Char) :
    splitNL (a ++ b) =
      ((splitNL a).1 ++ (splitNL ((splitNL a).2 ++ b)).1,
       (splitNL ((splitNL a).2 ++ b)).2) := by
  induction a with
  | nil => simp [splitNL]
  | cons c a ih =>
    by_cases hc : c = '\n'
    · subst hc
      rw [List.cons_append, splitNL_cons_nl (a ++ b), splitNL_cons_nl a, ih]
      simp
    · rw [List.cons_append, splitNL_cons_other c (a ++ b) hc, splitNL_cons_other c a hc, ih]
      cases h1 : (splitNL a).1 with
      | nil =>
        simp only [List.nil_append]
        rw [show (c :: (splitNL a).2) ++ b = c :: ((splitNL a).2 ++ b) from rfl]
        rw [splitNL_cons_other c ((splitNL a).2 ++ b) hc]
      | cons l0 ls =>
        simp [List.cons_append]

/-- A list without newlines splits into no lines and itself as
buffer. -/
theorem splitNL_of_no_newline (l : List Char) (h : '\n' ∉ l) :
    splitNL l = ([], l) := by
  induction l with
  | nil => rfl
  | cons c rest ih =>
    have hc : c ≠ '\n' := fun hemem => h (hemem ▸ List.mem_cons_self c rest)
    have hrest : '\n' ∉ rest := fun hm => h (List.mem_cons_of_mem c hm)
    simp [splitNL, hc, ih hrest]

/-- The buffer left by the splitter never contains a newline. -/
theorem splitNL_buffer_no_newline (l : List Char) : '\n' ∉ (splitNL l).2 := by
  induction l with
  | nil => simp [splitNL]
  | cons c rest ih =>
    by_cases hc : c = '\n'
    · simpa [splitNL, hc] using ih
    · simp only [splitNL, if_neg hc]
      cases h1 : (splitNL rest).1 with
      | nil =>
        simp only [h1]
        intro hm
        cases hm with
        | head => exact hc rfl
        | tail _ hm2 => exact ih hm2
      | cons l0 ls => simpa [h1] using ih

/-- The read loop is equivalent to splitting the concatenation of the
buffer and all remaining chunks at once. -/
theorem feedAll_eq_splitNL (chunks : List (List Char)) :
    ∀ buf : List Char, '\n' ∉ buf →
      feedAll buf chunks = splitNL (buf ++ chunks.flatten) := by
  induction chunks with
  | nil =>
    intro buf hbuf
    simp [feedAll, splitNL_of_no_newline buf hbuf]
  | cons c cs ih =>
    intro buf hbuf
    have hbuf2 : '\n' ∉ (splitNL (buf ++ c)).2 := splitNL_buffer_no_newline (buf ++ c)
    simp only [feedAll, List.flatten_cons]
    rw [ih (splitNL (buf ++ c)).2 hbuf2]
    rw [show buf ++ (c ++ cs.flatten) = (buf ++ c) ++ cs.flatten from
      (List.append_assoc buf c cs.flatten).symm]
    rw [splitNL_append (buf ++ c) cs.flatten]

/-- Claim C5: however the response is cut into chunks, the read loop
delivers exactly the lines of the full decoded text in order — an
incomplete trailing line of a chunk is carried in the buffer and
prefixed to the next chunk, lines are never dropped, and a line
completed only by the final chunk is still delivered — so the events
handed to the dispatcher equal those obtained from splitting the full
text on line boundaries. -/
theorem c5_chunking_invariance (chunks : List (List Char)) :
    collectLines chunks = (splitNL chunks.flatten).1
    ∧ (collectLines chunks).filterMap parseLine
        = ((splitNL chunks.flatten).1).filterMap parseLine := by
  have h : feedAll [] chunks = splitNL chunks.flatten := by
    simpa using feedAll_eq_splitNL chunks [] (by simp)
  constructor
  · show (feedAll [] chunks).1 = (splitNL chunks.flatten).1
    rw [h]
  · show ((feedAll [] chunks).1).filterMap parseLine
      = ((splitNL chunks.flatten).1).filterMap parseLine
    rw [h]

/-!  Claim C6 — the watch-list ordering. -/

theorem sortLeq_of_rankable {x y : IndicatorRef} (hx : rankable x = true)
    (hy : rankable y = true) : sortLeq x y = decide (rankVal x ≤ rankVal y) := by
  unfold rankable at hx hy
  unfold sortLeq rankVal
  cases hcx : catRank x.category with
  | none =>
    rw [hcx] at hx
    exact absurd hx (by simp)
  | some rx =>
    cases hcy : catRank y.category with
    | none =>
      rw [hcy] at hy
      exact absurd hy (by simp)
    | some ry => simp

theorem mem_insertByRank {x a : IndicatorRef} :
    ∀ {l : List IndicatorRef}, a ∈ insertByRank x l → a = x ∨ a ∈ l := by
  intro l
  induction l with
  | nil =>
    intro h
    simp [insertByRank] at h
    exact Or.inl h
  | cons y ys ih =>
    intro h
    simp only [insertByRank] at h
    by_cases hxy : sortLeq x y = true
    · rw [if_pos hxy] at h
      cases h with
      | head => exact Or.inl rfl
      | tail _ h2 => exact Or.inr h2
    · rw [if_neg hxy] at h
      cases h with
      | head => exact Or.inr (List.mem_cons_self a ys)
      | tail _ h2 =>
        cases ih h2 with
        | inl h3 => exact Or.inl h3
        | inr h3 => exact Or.inr (List.mem_cons_of_mem y h3)

theorem mem_sortByRank {a : IndicatorRef} :
    ∀ {l : List IndicatorRef}, a ∈ sortByRank l → a ∈ l := by
  intro l
  induction l with
  | nil =>
    intro h
    exact absurd h (by simp [sortByRank])
  | cons x xs ih =>
    intro h
    cases mem_insertByRank h with
    | inl h3 =>
      subst h3
      exact List.mem_cons_self _ _
    | inr h3 => exact List.mem_cons_of_mem x (ih h3)

theorem pairwise_insertByRank (x : IndicatorRef) (l : List IndicatorRef)
    (hx : rankable x = true) (hl : ∀ y ∈ l, rankable y = true)
    (h : l.Pairwise rankLE) : (insertByRank x l).Pairwise rankLE := by
  induction l with
  | nil => simp [insertByRank, rankLE]
  | cons y ys ih =>
    have hy : rankable y = true := hl y (List.mem_cons_self y ys)
    have hys : ∀ z ∈ ys, rankable z = true := fun z hz => hl z (List.mem_cons_of_mem y hz)
    rw [List.pairwise_cons] at h
    simp only [insertByRank]
    rw [sortLeq_of_rankable hx hy]
    by_cases hle : rankVal x ≤ rankVal y
    · rw [if_pos (by simp [hle])]
      rw [List.pairwise_cons]
      constructor
      · intro z hz
        cases hz with
        | head => exact hle
        | tail _ hz2 => exact le_trans hle (h.1 z hz2)
      · rw [List.pairwise_cons]
        exact h
    · rw [if_neg (by simp [hle])]
      rw [List.pairwise_cons]
      constructor
      · intro z hz
        cases mem_insertByRank hz with
        | inl h3 =>
          subst h3
          exact le_of_not_le hle
        | inr h3 => exact h.1 z h3
      · exact ih hys h.2

theorem sortByRank_pairwise (l : List IndicatorRef)
    (hall : ∀ i ∈ l, rankable i = true) : (sortByRank l).Pairwise rankLE := by
  induction l with
  | nil => exact List.Pairwise.nil
  | cons x xs ih =>
    exact pairwise_insertByRank x (sortByRank xs)
      (hall x (List.mem_cons_self x xs))
      (fun y hy => hall y (List.mem_cons_of_mem x (mem_sortByRank hy)))
      (ih (fun i hi => hall i (List.mem_cons_of_mem x hi)))

theorem filter_insertByRank (x : IndicatorRef) (r : Nat) (hx : rankable x = true) :
    ∀ l : List IndicatorRef, (∀ y ∈ l, rankable y = true) →
      (insertByRank x l).filter (fun y => rankVal y == r)
        = (if rankVal x = r then
            x :: l.filter (fun y => rankVal y == r)
          else l.filter (fun y => rankVal y == r)) := by
  intro l
  induction l with
  | nil =>
    intro hl
    by_cases hxr : rankVal x = r <;> simp [insertByRank, hxr]
  | cons y ys ih =>
    intro hl
    have hy : rankable y = true := hl y (List.mem_cons_self y ys)
    have hys : ∀ z ∈ ys, rankable z = true := fun z hz => hl z (List.mem_cons_of_mem y hz)
    simp only [insertByRank]
    rw [sortLeq_of_rankable hx hy]
    by_cases hle : rankVal x ≤ rankVal y
    · rw [if_pos (by simp [hle])]
      by_cases hxr : rankVal x = r <;> simp [List.filter_cons, hxr]
    · rw [if_neg (by simp [hle])]
      by_cases hyr : rankVal y = r
      · have hxr : rankVal x ≠ r := by
          intro hxr2
          apply hle
          rw [hxr2, hyr]
        simp [List.filter_cons, hyr, hxr, ih hys]
      · simp [List.filter_cons, hyr, ih hys]

theorem sortByRank_filter (l : List IndicatorRef) (r : Nat)
    (hall : ∀ i ∈ l, rankable i = true) :
    (sortByRank l).filter (fun y => rankVal y == r)
      = l.filter (fun y => rankVal y == r) := by
  induction l with
  | nil => rfl
  | cons x xs ih =>
    show (insertByRank x (sortByRank xs)).filter (fun y => rankVal y == r)
        = (x :: xs).filter (fun y => rankVal y == r)
    rw [filter_insertByRank x r (hall x (List.mem_cons_self x xs)) (sortByRank xs)
      (fun y hy => hall y (List.mem_cons_of_mem x (mem_sortByRank hy)))]
    rw [ih (fun i hi => hall i (List.mem_cons_of_mem x hi))]
    by_cases hxr : rankVal x = r
    · simp [List.filter_cons, hxr]
    · simp [List.filter_cons, hxr]

theorem insertByRank_length (x : IndicatorRef) :
    ∀ l : List IndicatorRef, (insertByRank x l).length = l.length + 1 := by
  intro l
  induction l with
  | nil => rfl
  | cons y ys ih =>
    simp only [insertByRank]
    by_cases hxy : sortLeq x y = true
    · rw [if_pos hxy]
      rfl
    · rw [if_neg hxy]
      simp [ih]

theorem sortByRank_length (l : List IndicatorRef) :
    (sortByRank l).length = l.length := by
  induction l with
  | nil => rfl
  | cons x xs ih =>
    show (insertByRank x (sortByRank xs)).length = xs.length + 1
    rw [insertByRank_length, ih]

/-- Claim C6, counterexample: for an unknown category that names an
Object.prototype property the claimed default rank 1 does not apply.
With indicators A of category risk and X of category constructor, the
comparator looks up the inherited constructor function, subtracts to
NaN, and the sort treats the comparison as equal — every comparison of
this two-element input is equal, so the mandated stable order is the
arrival order and the dispatcher produces the watch list A, X; the
claimed ranking (X at the macro default 1 before A at risk 2) would
produce X, A. -/
theorem c6_counterexample :
    (handleEvent "a1" none emptyState (DispatchEvent.fredSearchResults (some
        [⟨"A", some "risk"⟩, ⟨"X", some "constructor"⟩]))).watched = ["A", "X"]
    ∧ ((claimSortByRank [⟨"A", some "risk"⟩, ⟨"X", some "constructor"⟩]).map
        (fun i => i.id)).take 5 = ["X", "A"]
    ∧ (["A", "X"] : List String) ≠ (["X", "A"] : List String) := by
  refine ⟨by decide, by decide, by decide⟩

/-- Claim C6, amended: on a fred_search_results event with a non-empty
indicator sequence the dispatcher replaces the watch list with the ids
of the indicators ordered by the source comparator, truncated to at
most five entries.  The comparator ranks sector 0, macro 1 and risk 2,
and the default rank 1 applies to a missing category and to unknown
categories other than names of Object.prototype properties; a category
naming such a property makes the comparator evaluate to NaN, treated as
no preference.  Whenever every category carries a numeric rank the
result is the stable sort by rank: rank-ordered, arrival order kept
within every rank class, a permutation of the input; and the concrete
indicators A risk, B sector, C without category yield the watch list
B, C, A. -/
theorem c6_watch_list :
    (∀ (aid : String) (cap : Option String) (s : ChatState) (inds : List IndicatorRef),
      inds ≠ [] →
        (handleEvent aid cap s (DispatchEvent.fredSearchResults (some inds))).watched
          = ((sortByRank inds).map (fun i => i.id)).take 5
        ∧ (handleEvent aid cap s (DispatchEvent.fredSearchResults (some inds))).watched.length ≤ 5
        ∧ (sortByRank inds).length = inds.length
        ∧ ((∀ i ∈ inds, rankable i = true) →
            (sortByRank inds).Pairwise rankLE
            ∧ (∀ r : Nat, (sortByRank inds).filter (fun y => rankVal y == r)
                = inds.filter (fun y => rankVal y == r))))
    ∧ (handleEvent "a1" none emptyState (DispatchEvent.fredSearchResults (some
        [⟨"A", some "risk"⟩, ⟨"B", some "sector"⟩, ⟨"C", none⟩]))).watched
        = ["B", "C", "A"] := by
  constructor
  · intro aid cap s inds hne
    have hlen : inds.length > 0 := List.length_pos.mpr hne
    have hw : (handleEvent aid cap s (DispatchEvent.fredSearchResults (some inds))).watched
        = ((sortByRank inds).map (fun i => i.id)).take 5 := by
      simp only [handleEvent, setWatchedIndicators, if_pos hlen]
      simp [List.take_take]
    refine ⟨hw, ?_, sortByRank_length inds, fun hall =>
      ⟨sortByRank_pairwise inds hall, fun r => sortByRank_filter inds r hall⟩⟩
    rw [hw]
    exact List.length_take_le 5 _
  · decide

/-- Claim C6, witness: the general part applied to the concrete
rankable indicator list of the claim, discharging both the
non-emptiness and the rankability hypotheses. -/
theorem c6_watch_list_witness :
    ((handleEvent "a1" none emptyState (DispatchEvent.fredSearchResults (some
        [⟨"A", some "risk"⟩, ⟨"B", some "sector"⟩, ⟨"C", none⟩]))).watched
      = ((sortByRank [⟨"A", some "risk"⟩, ⟨"B", some "sector"⟩, ⟨"C", none⟩]).map
          (fun i => i.id)).take 5)
    ∧ (sortByRank [⟨"A", some "risk"⟩, ⟨"B", some "sector"⟩, ⟨"C", none⟩]).Pairwise rankLE :=
  ⟨(c6_watch_list.1 "a1" none emptyState
      [⟨"A", some "risk"⟩, ⟨"B", some "sector"⟩, ⟨"C", none⟩]
      (List.cons_ne_nil _ _)).1,
   ((c6_watch_list.1 "a1" none emptyState
      [⟨"A", some "risk"⟩, ⟨"B", some "sector"⟩, ⟨"C", none⟩]
      (List.cons_ne_nil _ _)).2.2.2 (by decide)).1⟩

/-!  Claim C8 — session id adoption. -/

theorem handleEvent_sessionId (aid : String) (cap : Option String) (s : ChatState)
    (ev : DispatchEvent) (h : strTruthy cap = true) :
    (handleEvent aid cap s ev).sessionId = s.sessionId := by
  cases ev with
  | token c => rfl
  | toolCall t i => rfl
  | toolResult t r => rfl
  | done sid lgs =>
    simp only [handleEvent, h, Bool.not_true, Bool.and_false]
    cases lgs with
    | none => simp
    | some ls =>
      by_cases hl : ls.length > 0
      · simp [hl, setLogs]
      · simp [hl]
  | fredSearchResults inds =>
    cases inds with
    | none => rfl
    | some l =>
      by_cases hl : l.length > 0
      · simp [handleEvent, hl, setWatchedIndicators]
      · simp [handleEvent, hl]
  | error m => rfl
  | ignored => rfl

theorem foldl_handleEvent_sessionId (aid : String) (cap : Option String)
    (evs : List DispatchEvent) (h : strTruthy cap = true) :
    ∀ s : ChatState, (evs.foldl (handleEvent aid cap) s).sessionId = s.sessionId := by
  induction evs with
  | nil =>
    intro s
    rfl
  | cons e es ih =>
    intro s
    rw [List.foldl_cons, ih (handleEvent aid cap s e), handleEvent_sessionId aid cap s e h]

theorem sendMessage_preserves_sessionId (s : ChatState) (text uid aid : String)
    (outcome : StreamOutcome) (h : strTruthy s.sessionId = true) :
    (sendMessage s text uid aid outcome).state.sessionId = s.sessionId := by
  unfold sendMessage
  by_cases hb : sendBlocked s text = true
  · rw [if_pos hb]
  · rw [if_neg hb]
    cases outcome with
    | completed evs =>
      show (setLoading false _).sessionId = s.sessionId
      rw [show ∀ st : ChatState, (setLoading false st).sessionId = st.sessionId from
        fun st => rfl]
      rw [foldl_handleEvent_sessionId aid s.sessionId evs h]
      rfl
    | abortedBeforeStream => rfl
    | failed evs errMsg =>
      show (setLoading false _).sessionId = s.sessionId
      rw [show ∀ st : ChatState, (setLoading false st).sessionId = st.sessionId from
        fun st => rfl]
      show (List.foldl (handleEvent aid s.sessionId) _ evs).sessionId = s.sessionId
      rw [foldl_handleEvent_sessionId aid s.sessionId evs h]
      rfl

/-- Claim C8: a done event adopts its sessionId only when the
conversation has none yet, and once a session id is set no done event
of a later send overwrites it: any send started from a state whose
session id is a non-empty sid ends with that same sid; concretely, a
first send whose stream carries done with S1 sets the id to S1, and a
second send whose stream carries done with S2 leaves it at S1. -/
theorem c8_session_adoption :
    (∀ (s : ChatState) (sid text uid aid : String) (outcome : StreamOutcome),
      s.sessionId = some sid → sid ≠ "" →
        (sendMessage s text uid aid outcome).state.sessionId = some sid)
    ∧ ((sendMessage emptyState "q1" "u1" "a1"
          (StreamOutcome.completed [DispatchEvent.done (some "S1") none])).state.sessionId
        = some "S1")
    ∧ ((sendMessage
          (sendMessage emptyState "q1" "u1" "a1"
            (StreamOutcome.completed [DispatchEvent.done (some "S1") none])).state
          "q2" "u2" "a2"
          (StreamOutcome.completed [DispatchEvent.done (some "S2") none])).state.sessionId
        = some "S1") := by
  refine ⟨?_, by decide, by decide⟩
  intro s sid text uid aid outcome hs hne
  have hd : sid.data ≠ [] := by
    intro hnil
    apply hne
    cases sid with
    | mk l =>
      cases hnil
      rfl
  have ht : strTruthy s.sessionId = true := by
    rw [hs]
    show (!sid.data.isEmpty) = true
    cases hd2 : sid.data with
    | nil => exact absurd hd2 hd
    | cons c cs => rfl
  rw [sendMessage_preserves_sessionId s text uid aid outcome ht, hs]

/-- Claim C8, witness: a later send with done S2 leaves an existing S1
untouched. -/
theorem c8_session_adoption_witness :
    (sendMessage { emptyState with sessionId := some "S1" } "hello" "u1" "a1"
        (StreamOutcome.completed [DispatchEvent.done (some "S2") none])).state.sessionId
      = some "S1" :=
  c8_session_adoption.1 { emptyState with sessionId := some "S1" } "S1" "hello" "u1" "a1"
    (StreamOutcome.completed [DispatchEvent.done (some "S2") none]) rfl (by decide)

/-!  Claim C4 — what the pipeline does when the stream ends without a
terminal event. -/

theorem filter_map_id_preserving (aid : String) (f : ChatMessage → ChatMessage)
    (hid : ∀ m, (f m).id = m.id) :
    ∀ l : List ChatMessage,
      (l.map f).filter (fun m => m.id == aid) = (l.filter (fun m => m.id == aid)).map f := by
  intro l
  induction l with
  | nil => rfl
  | cons m ms ih =>
    simp only [List.map_cons, List.filter_cons, hid m]
    by_cases hm : m.id = aid
    · simp [hm, ih]
    · simp [hm, ih]

theorem handleEvent_messages_const (aid : String) (cap : Option String) (s : ChatState) :
    ∀ ev : DispatchEvent, isErrorEvent ev = false →
      (∀ c, ev ≠ DispatchEvent.token c) →
      (handleEvent aid cap s ev).messages = s.messages := by
  intro ev hev htok
  cases ev with
  | token c => exact absurd rfl (htok c)
  | toolCall t i => rfl
  | toolResult t r => rfl
  | done sid lgs =>
    cases sid <;> cases lgs <;>
      simp [handleEvent, setLogs, setSessionId,
        apply_ite (fun st : ChatState => st.messages)]
  | fredSearchResults inds =>
    cases inds <;>
      simp [handleEvent, setWatchedIndicators,
        apply_ite (fun st : ChatState => st.messages)]
  | error m => exact absurd hev (by simp [isErrorEvent])
  | ignored => rfl

theorem tokenUpdate_id (aid c : String) (m : ChatMessage) :
    (tokenUpdate aid c m).id = m.id := by
  unfold tokenUpdate
  by_cases hm : m.id = aid <;> simp [hm]

theorem map_ctype_of_preserving (f : ChatMessage → ChatMessage)
    (hct : ∀ m, (f m).ctype = m.ctype) :
    ∀ l : List ChatMessage,
      (l.map f).map (fun m => m.ctype) = l.map (fun m => m.ctype) := by
  intro l
  induction l with
  | nil => rfl
  | cons m ms ih => simp [hct m, ih]

theorem handleEvent_keeps_text (aid : String) (cap : Option String) (s : ChatState)
    (ev : DispatchEvent) (hev : isErrorEvent ev = false)
    (hP : (s.messages.filter (fun m => m.id == aid)).map (fun m => m.ctype)
        = [ContentType.text]) :
    ((handleEvent aid cap s ev).messages.filter (fun m => m.id == aid)).map (fun m => m.ctype)
      = [ContentType.text] := by
  cases ev with
  | token c =>
    show ((s.messages.map (tokenUpdate aid c)).filter (fun m => m.id == aid)).map
        (fun m => m.ctype) = [ContentType.text]
    rw [filter_map_id_preserving aid (tokenUpdate aid c) (tokenUpdate_id aid c) s.messages]
    rw [map_ctype_of_preserving (tokenUpdate aid c) (fun m => by
      unfold tokenUpdate
      by_cases hm : m.id = aid <;> simp [hm])]
    exact hP
  | toolCall t i =>
    rw [handleEvent_messages_const aid cap s (DispatchEvent.toolCall t i) rfl
      (fun c h => DispatchEvent.noConfusion h)]
    exact hP
  | toolResult t r =>
    rw [handleEvent_messages_const aid cap s (DispatchEvent.toolResult t r) rfl
      (fun c h => DispatchEvent.noConfusion h)]
    exact hP
  | done sid lgs =>
    rw [handleEvent_messages_const aid cap s (DispatchEvent.done sid lgs) rfl
      (fun c h => DispatchEvent.noConfusion h)]
    exact hP
  | fredSearchResults inds =>
    rw [handleEvent_messages_const aid cap s (DispatchEvent.fredSearchResults inds) rfl
      (fun c h => DispatchEvent.noConfusion h)]
    exact hP
  | error m => exact absurd hev (by simp [isErrorEvent])
  | ignored => exact hP

theorem foldl_keeps_text (aid : String) (cap : Option String) (evs : List DispatchEvent)
    (hevs : ∀ e ∈ evs, isErrorEvent e = false) :
    ∀ s : ChatState,
      (s.messages.filter (fun m => m.id == aid)).map (fun m => m.ctype) = [ContentType.text] →
      (((evs.foldl (handleEvent aid cap) s).messages.filter
          (fun m => m.id == aid)).map (fun m => m.ctype)) = [ContentType.text] := by
  induction evs with
  | nil =>
    intro s hP
    exact hP
  | cons e es ih =>
    intro s hP
    rw [List.foldl_cons]
    exact ih (fun x hx => hevs x (List.mem_cons_of_mem e hx))
      (handleEvent aid cap s e)
      (handleEvent_keeps_text aid cap s e (hevs e (List.mem_cons_self e es)) hP)

theorem sendMessage_completed_state (s : ChatState) (text uid aid : String)
    (evs : List DispatchEvent) (hb : sendBlocked s text = false) :
    (sendMessage s text uid aid (StreamOutcome.completed evs)).state
      = setLoading false
          (evs.foldl (handleEvent aid s.sessionId) (preStreamState s text uid aid)) := by
  unfold sendMessage
  rw [if_neg (by rw [hb]; exact Bool.noConfusion)]

/-- Claim C4, counterexample: a stream that delivers one token and then
ends with no terminal event leaves the streaming message as an ordinary
text message — no message of the error kind exists afterwards, refuting
the claimed error finalization at this concrete input. -/
theorem c4_counterexample :
    ((sendMessage emptyState "hi" "u1" "a1"
        (StreamOutcome.completed [DispatchEvent.token "partial"])).state.messages.map
      (fun m => m.ctype)) = [ContentType.text, ContentType.text]
    ∧ ((sendMessage emptyState "hi" "u1" "a1"
        (StreamOutcome.completed [DispatchEvent.token "partial"])).state.messages.all
      (fun m => m.ctype != ContentType.error)) = true := by
  constructor
  · decide
  · decide

/-- Claim C4, amended: when the stream ends without any terminal event
the send completes silently — the read loop just finishes, so the
streaming assistant message stays in the list as an ordinary text
message (never finalized as an error) and loading is cleared; no
failure is reported. -/
theorem c4_amended (s : ChatState) (text uid aid : String) (evs : List DispatchEvent)
    (hb : sendBlocked s text = false)
    (hfresh : ∀ m ∈ s.messages, m.id ≠ aid)
    (huid : uid ≠ aid)
    (hevs : ∀ e ∈ evs, isErrorEvent e = false) :
    (((sendMessage s text uid aid (StreamOutcome.completed evs)).state.messages.filter
        (fun m => m.id == aid)).map (fun m => m.ctype) = [ContentType.text])
    ∧ (sendMessage s text uid aid (StreamOutcome.completed evs)).state.isLoading = false := by
  rw [sendMessage_completed_state s text uid aid evs hb]
  constructor
  · show (((evs.foldl (handleEvent aid s.sessionId)
        (preStreamState s text uid aid)).messages.filter
          (fun m => m.id == aid)).map (fun m => m.ctype)) = [ContentType.text]
    apply foldl_keeps_text aid s.sessionId evs hevs
    show ((((s.messages ++ [userMsgOf s text uid]) ++ [assistantPlaceholder aid]).filter
        (fun m => m.id == aid)).map (fun m => m.ctype)) = [ContentType.text]
    rw [List.filter_append, List.filter_append]
    rw [List.filter_eq_nil_iff.mpr (fun m hm => by simp [hfresh m hm])]
    rw [show List.filter (fun m => m.id == aid) [userMsgOf s text uid] = [] by
      have hne : (uid == aid) = false := beq_eq_false_iff_ne.mpr huid
      simp [List.filter, userMsgOf, hne]]
    simp [assistantPlaceholder, List.filter]
  · rfl

/-- Claim C4, witness: the amended statement at a concrete send whose
stream delivers one token and no terminal event. -/
theorem c4_amended_witness :
    (((sendMessage emptyState "hi" "u1" "a1"
        (StreamOutcome.completed [DispatchEvent.token "x"])).state.messages.filter
          (fun m => m.id == "a1")).map (fun m => m.ctype) = [ContentType.text])
    ∧ (sendMessage emptyState "hi" "u1" "a1"
        (StreamOutcome.completed [DispatchEvent.token "x"])).state.isLoading = false :=
  c4_amended emptyState "hi" "u1" "a1" [DispatchEvent.token "x"] (by decide)
    (by intro m hm; cases hm) (by decide)
    (by
      intro e he
      rw [List.mem_singleton] at he
      subst he
      rfl)

/-!  Claim C9 — malformed event lines are dropped, not fatal. -/

/-- Claim C9: a stream line whose payload after the marker is not valid
JSON is silently dropped and the stream goes on: of the two lines, the
malformed one parses to nothing and only the valid done event is
delivered, and a send fed exactly these lines completes normally — the
user and assistant messages end as ordinary text messages and loading
is cleared. -/
theorem c9_malformed_line :
    eventsOfLines ["data: \x7bnot valid json", "data: \x7b\"type\":\"done\"\x7d"]
      = [DispatchEvent.done none none]
    ∧ jsonParse ("\x7bnot valid json".data) = none
    ∧ ((sendMessage emptyState "hi" "u1" "a1"
        (StreamOutcome.completed (eventsOfLines
          ["data: \x7bnot valid json", "data: \x7b\"type\":\"done\"\x7d"]))).state.messages.map
        (fun m => (m.id, m.ctype)))
      = [("u1", ContentType.text), ("a1", ContentType.text)]
    ∧ (sendMessage emptyState "hi" "u1" "a1"
        (StreamOutcome.completed (eventsOfLines
          ["data: \x7bnot valid json", "data: \x7b\"type\":\"done\"\x7d"]))).state.isLoading
      = false :=
  ⟨rfl, rfl, rfl, rfl⟩

end FredOS


